import Mathlib

/-!
Verification of the variance/stddev aggregation kernel and the execution-plan
lifecycle of the columnar analytics engine fragment.

The embedding models C++ `double` values by exact rationals (`ℚ`); where a
claim is about the bit-level result of a double computation, an explicit
binary64 round-to-nearest-even model (`roundB64`, `fpSqrt`) is applied at the
operations where the C++ code rounds.  `int64_t` counters are modelled by `ℤ`
(the claims about overflow are settled by bound theorems, not by wraparound).
An array column is a `List (Option v)`: `none` is a null entry.
-/

namespace Arrow

/-- `VarStdState<ArrowType>` from `aggregate_var_std.cc`: accumulator for the
variance/stddev kernels.  `count` is `int64_t`, `mean` and `m2` are `double`
(here exact `ℚ`).  Member defaults are `count = 0, mean = 0, m2 = 0`. -/
structure VarStdState where
  count : ℤ
  mean : ℚ
  m2 : ℚ
deriving DecidableEq, Repr

/-- A freshly initialized state (the member defaults of `VarStdState`). -/
def VarStdState.fresh : VarStdState := ⟨0, 0, 0⟩

/-- Modelled from the spec: `MergeVarStd` is declared in
`aggregate_var_std_internal.h`, which is not part of this fragment.  Section
4.9 of the spec gives the parallel-combine formula: `n = n1 + n2`,
`mean = (n1*mean1 + n2*mean2)/n`, `m2 = m2a + m2b + (mean1 - mean2)^2 * n1*n2/n`.
Returns `(count, mean, m2)`. -/
def MergeVarStd (n1 : ℤ) (mean1 : ℚ) (n2 : ℤ) (mean2 : ℚ) (m2a m2b : ℚ) :
    ℤ × ℚ × ℚ :=
  let n : ℤ := n1 + n2
  (n, ((n1 : ℚ) * mean1 + (n2 : ℚ) * mean2) / (n : ℚ),
    m2a + m2b + (mean1 - mean2) ^ 2 * ((n1 : ℚ) * (n2 : ℚ)) / (n : ℚ))

/-- `VarStdState::MergeFrom` (`aggregate_var_std.cc` lines 124-136): if the
other state is empty keep `this`; if `this` is empty copy the other state;
otherwise combine through `MergeVarStd`. -/
def VarStdState.MergeFrom (s other : VarStdState) : VarStdState :=
  if other.count = 0 then s
  else if s.count = 0 then other
  else
    let r := MergeVarStd s.count s.mean other.count other.mean s.m2 other.m2
    ⟨r.1, r.2.1, r.2.2⟩

/-- Number of valid (non-null) entries of an array column:
`array.length() - array.null_count()`. -/
def validCount {v : Type} (arr : List (Option v)) : ℕ :=
  (arr.filterMap id).length

/-- The two-pass `VarStdState::Consume` overload (`aggregate_var_std.cc`
lines 44-67), used for floating-point and wide (more than 4 byte) integer
input: if the valid count is zero return; otherwise compute the exact sum,
then `mean = sum / count` and `m2 = sum((v - mean)^2)` over the valid values,
and ASSIGN `count`, `mean`, `m2` into the state (overwriting it). -/
def VarStdState.ConsumeTwoPass (s : VarStdState) (arr : List (Option ℚ)) :
    VarStdState :=
  let vals := arr.filterMap id
  let count := vals.length
  if count = 0 then s
  else
    let mean : ℚ := vals.sum / (count : ℚ)
    let m2 : ℚ := (vals.map (fun v => (v - mean) ^ 2)).sum
    ⟨count, mean, m2⟩

/-- The scalar `VarStdState::Consume` overload (`aggregate_var_std.cc` lines
111-120): sets `m2 = 0`; a valid scalar sets `count` to the batch length and
`mean` to the scalar value, an invalid scalar sets `count = 0, mean = 0`. -/
def VarStdState.ConsumeScalar (s : VarStdState) (scalar : Option ℚ)
    (length : ℤ) : VarStdState :=
  match s, scalar with
  | _, some v => ⟨length, v, 0⟩
  | _, none => ⟨0, 0, 0⟩

/-- A well-formed kernel state: the count is nonnegative (counts come from
array lengths) and a state with count zero is exactly the fresh state (the
only zero-count state the kernel code ever produces). -/
def WFState (s : VarStdState) : Prop :=
  0 ≤ s.count ∧ (s.count = 0 → s = VarStdState.fresh)

/-- `max_length` of the one-pass `Consume` (`aggregate_var_std.cc` line 76):
`1ULL << (63 - sizeof(CType) * 8)` for an element width of `w` bytes. -/
def maxLength (w : ℕ) : ℕ := 2 ^ (63 - 8 * w)

/-- Modelled from the spec: `IntegerVarStd<ArrowType>` is declared in
`aggregate_var_std_internal.h`, which is not part of this fragment.  It
accumulates, over the valid values of one slice, `count`, the sum of the
values (the source comment at lines 73-75 documents the sum to be an
`int64_t`) and the sum of their squares, and exposes
`mean() = sum / count` and `m2() = square_sum - sum * sum / count`.  This
model keeps the integer accumulations exact; claim C6 settles which widths
they fit in.  The resulting chunk state is `(count, mean(), m2())`. -/
def integerVarStdState (slice : List (Option ℤ)) : VarStdState :=
  let vals := slice.filterMap id
  let sum : ℤ := vals.sum
  let squareSum : ℤ := (vals.map (fun v => v * v)).sum
  ⟨vals.length, (sum : ℚ) / (vals.length : ℚ),
    (squareSum : ℚ) - (sum : ℚ) * (sum : ℚ) / (vals.length : ℚ)⟩

/-- The loop of the one-pass `VarStdState::Consume` overload
(`aggregate_var_std.cc` lines 70-108), used for integers of width at most 4
bytes: while valid values remain, slice off the next `max_length` elements,
accumulate an `IntegerVarStd` over the slice if it has any valid value, and
`MergeFrom` the resulting chunk state into `this`. -/
def VarStdState.ConsumeOnePassGo (w : ℕ) (s : VarStdState)
    (arr : List (Option ℤ)) : VarStdState :=
  if validCount arr = 0 then s
  else
    let slice := arr.take (maxLength w)
    let rest := arr.drop (maxLength w)
    let s2 := if validCount slice = 0 then s
      else s.MergeFrom (integerVarStdState slice)
    VarStdState.ConsumeOnePassGo w s2 rest
termination_by arr.length
decreasing_by
  have harr : arr ≠ [] := by
    intro hnil
    subst hnil
    simp [validCount] at *
  have hpos : 0 < arr.length := List.length_pos.mpr harr
  have hml : 0 < maxLength w := Nat.pos_pow_of_pos _ (by norm_num)
  simp only [List.length_drop]
  omega

/-- The one-pass `VarStdState::Consume` overload for narrow (at most 4 byte)
integers. -/
def VarStdState.ConsumeOnePass (w : ℕ) (s : VarStdState)
    (arr : List (Option ℤ)) : VarStdState :=
  VarStdState.ConsumeOnePassGo w s arr

/-- The list of slices the one-pass loop feeds to `IntegerVarStd`, in order
(mirrors the recursion of `ConsumeOnePassGo`). -/
def onePassSlices (w : ℕ) (arr : List (Option ℤ)) : List (List (Option ℤ)) :=
  if validCount arr = 0 then []
  else arr.take (maxLength w) :: onePassSlices w (arr.drop (maxLength w))
termination_by arr.length
decreasing_by
  have harr : arr ≠ [] := by
    intro hnil
    subst hnil
    simp [validCount] at *
  have hpos : 0 < arr.length := List.length_pos.mpr harr
  have hml : 0 < maxLength w := Nat.pos_pow_of_pos _ (by norm_num)
  simp only [List.length_drop]
  omega

/-! ### Binary64 model

The C++ kernel stores `double` values.  All intermediate arithmetic of the
claims below happens on values exactly representable in binary64, so the
state is modelled over exact `ℚ`; the two places where the kernel performs a
genuinely rounding double operation on a possibly unrepresentable result are
`Finalize` (`m2 / (count - ddof)` and `sqrt`).  `roundB64` is IEEE 754
round-to-nearest-even at 53 significand bits (normal range; the fragment's
data never leaves it), and `fpSqrt` is the correctly rounded square root that
IEEE 754 prescribes for `sqrt`. -/

/-- Round a rational to the nearest integer, ties to even. -/
def roundHalfEven (q : ℚ) : ℤ :=
  let f := ⌊q⌋
  let r := q - (f : ℚ)
  if r < 1 / 2 then f
  else if 1 / 2 < r then f + 1
  else if f % 2 = 0 then f else f + 1

/-- Round a positive rational to the nearest binary64 value (round to
nearest, ties to even), assuming normal range. -/
def roundB64Pos (q : ℚ) : ℚ :=
  let e : ℤ := Int.log 2 q
  ((roundHalfEven (q * 2 ^ (52 - e)) : ℚ)) * 2 ^ (e - 52)

/-- Round a rational to the nearest binary64 value (normal range). -/
def roundB64 (q : ℚ) : ℚ :=
  if q = 0 then 0
  else if 0 < q then roundB64Pos q
  else -roundB64Pos (-q)

/-- The integer nearest to the square root of a nonnegative rational, ties
to even. -/
def sqrtNearestHE (n : ℚ) : ℤ :=
  let s : ℤ := (Nat.sqrt (⌊n⌋.toNat) : ℤ)
  if 4 * n < ((2 * s + 1 : ℤ) : ℚ) ^ 2 then s
  else if (((2 * s + 1 : ℤ) : ℚ)) ^ 2 < 4 * n then s + 1
  else if s % 2 = 0 then s else s + 1

/-- The binary64 `sqrt` of the C library: correctly rounded square root
(round to nearest, ties to even), for positive normal-range input. -/
def fpSqrt (q : ℚ) : ℚ :=
  if q ≤ 0 then 0
  else
    let e : ℤ := Int.log 2 q
    let es : ℤ := Int.fdiv e 2
    ((sqrtNearestHE (q * 2 ^ (104 - 2 * es)) : ℚ)) * 2 ^ (es - 52)

/-- `VarOrStd` from `aggregate_var_std_internal.h`: which of the two kernels
a `VarStdImpl` instance finalizes to. -/
inductive VarOrStd where
  | Var : VarOrStd
  | Std : VarOrStd
deriving DecidableEq, Repr

/-- `VarStdImpl::Finalize` (`aggregate_var_std.cc` lines 168-177): when
`state.count <= options.ddof` the output is a null double scalar (`none`);
otherwise `var = m2 / (count - ddof)` as a double and the output is `var`
for the variance kernel and `sqrt(var)` for the stddev kernel. -/
def Finalize (rt : VarOrStd) (ddof : ℤ) (s : VarStdState) : Option ℚ :=
  if s.count ≤ ddof then none
  else
    let var := roundB64 (s.m2 / ((s.count : ℚ) - (ddof : ℚ)))
    some (match rt with
      | .Var => var
      | .Std => fpSqrt var)

/-! ### Kernel registration -/

/-- Tags for the Arrow data types relevant to the variance/stddev kernels. -/
inductive TypeTag where
  | int8 | int16 | int32 | int64
  | uint8 | uint16 | uint32 | uint64
  | float32 | float64 | float16
deriving DecidableEq, Repr

/-- `NumericTypes()`: the numeric input types the kernels are registered
for. -/
def NumericTypes : List TypeTag :=
  [.uint8, .int8, .uint16, .int16, .uint32, .int32, .uint64, .int64,
   .float32, .float64]

/-- A kernel signature: one input type and the declared output type
(`KernelSignature::Make({InputType(ty)}, float64())`). -/
structure KernelSig where
  inType : TypeTag
  outType : TypeTag
deriving DecidableEq, Repr

/-- `AddVarStdKernels` (`aggregate_var_std.cc` lines 238-245): for every
given input type, add a kernel whose signature has output type `float64`. -/
def AddVarStdKernels (types : List TypeTag) : List KernelSig :=
  types.map (fun ty => ⟨ty, .float64⟩)

/-- The kernels registered for the `variance` function
(`AddVarianceAggKernels`). -/
def varianceKernels : List KernelSig := AddVarStdKernels NumericTypes

/-- The kernels registered for the `stddev` function
(`AddStddevAggKernels`). -/
def stddevKernels : List KernelSig := AddVarStdKernels NumericTypes

/-! ### Mean kernel (for claim C8) -/

/-- Modelled from the spec: the `mean` kernel implementation
(`aggregate_basic.cc`) is not part of this fragment.  Section 4.6: mean
accumulates into double; the accumulator is the pair (sum of valid values,
valid count), a scalar contributes with multiplicity the batch length
(section 4.9), and finalization divides sum by count as a double (null when
no values). -/
structure MeanState where
  sum : ℚ
  count : ℤ
deriving DecidableEq, Repr

/-- Modelled from the spec: fold an array batch into a mean state. -/
def MeanState.consumeArray (s : MeanState) (arr : List (Option ℚ)) :
    MeanState :=
  ⟨s.sum + (arr.filterMap id).sum, s.count + (validCount arr : ℤ)⟩

/-- Modelled from the spec: fold a scalar batch of the given length into a
mean state. -/
def MeanState.consumeScalar (s : MeanState) (scalar : Option ℚ) (length : ℤ) :
    MeanState :=
  match scalar with
  | some v => ⟨s.sum + v * (length : ℚ), s.count + length⟩
  | none => s

/-- Modelled from the spec: finalize a mean state to a double scalar. -/
def MeanState.finalize (s : MeanState) : Option ℚ :=
  if s.count = 0 then none else some (roundB64 (s.sum / (s.count : ℚ)))

/-! ### Execution-plan lifecycle

Modelled from the spec: the `ExecPlan` implementation (`exec_plan.cc`) is not
part of this fragment; only its tests (`plan_test.cc`) are.  Section 4.1:
`StartProducing` invokes each node's start callback in reverse topological
order (sinks first, sources last); if any start returns an error, every
already-started node is stopped in the reverse of the order it was started
and the first error is returned; re-invocation after any prior start returns
an Invalid error mentioning "restarted".  `StopProducing` invokes each stop
callback in forward topological order (sources first, sinks last). -/

/-- The status a node's start callback returns, and the plan-level result
(`Status` in Arrow). -/
inductive Status where
  | ok : Status
  | invalid : String → Status
  | ioError : String → Status
  | notImplemented : String → Status
deriving DecidableEq, Repr

/-- A dummy node as built by `MakeDummyNode` in `plan_test.cc`: a label, the
labels of its inputs, and the status its start callback returns
(`start_producing_func(st)` appends the label to the `started` trace and
returns `st`; the stop callback appends to the `stopped` trace). -/
structure NodeModel where
  label : String
  inputs : List String
  startStatus : Status
deriving DecidableEq, Repr

/-- The observable outcome of `ExecPlan::StartProducing`: the returned
status, the `started` trace and the `stopped` trace of the callbacks. -/
structure PlanRun where
  result : Status
  started : List String
  stopped : List String
deriving DecidableEq, Repr

/-- Modelled from the spec: the start loop of `StartProducing`.  `order` is
the remaining nodes in start order (reverse topological); `acc` holds the
labels already started, most recent first.  A failing start stops the
already-started nodes in reverse start order (= `acc`) and returns the
error. -/
def runStart (order : List NodeModel) (acc : List String) : PlanRun :=
  match order with
  | [] => ⟨.ok, acc.reverse, []⟩
  | n :: rest =>
    match n.startStatus with
    | .ok => runStart rest (n.label :: acc)
    | e => ⟨e, (n.label :: acc).reverse, acc⟩

/-- Modelled from the spec: an `ExecPlan` holding its nodes in topological
order (every node's inputs appear before it) plus the has-ever-been-started
flag. -/
structure PlanModel where
  nodes : List NodeModel
  startedFlag : Bool
deriving DecidableEq, Repr

/-- Modelled from the spec: `ExecPlan::StartProducing`.  A plan that was
already started returns Invalid ("restarted"); otherwise the start
callbacks run in reverse topological order with error unwinding. -/
def StartProducing (p : PlanModel) : PlanRun × PlanModel :=
  if p.startedFlag then
    (⟨.invalid "ExecPlan cannot be restarted", [], []⟩, p)
  else
    (runStart p.nodes.reverse [], ⟨p.nodes, true⟩)

/-- Modelled from the spec: `ExecPlan::StopProducing` invokes the stop
callbacks in forward topological order; it does not clear the
has-been-started flag. -/
def StopProducing (p : PlanModel) : List String × PlanModel :=
  (p.nodes.map (fun n => n.label), p)

/-- Boolean check that a node list is in topological order: every input
label of a node occurs among the labels already seen. -/
def topoSortedB (seen : List String) : List NodeModel → Bool
  | [] => true
  | n :: rest =>
    n.inputs.all (fun lab => seen.contains lab) && topoSortedB (n.label :: seen) rest

/-- A plan's node list is validly topologically sorted. -/
def TopoSorted (nodes : List NodeModel) : Prop := topoSortedB [] nodes = true

/-! The two dummy graphs of `plan_test.cc` (`DummyStartProducing` and
`DummyStartProducingError`), node lists in topological order. -/

/-- `source1` of `DummyStartProducingError`: start returns NotImplemented. -/
def src1E : NodeModel := ⟨"source1", [], .notImplemented "zzz"⟩

/-- `source2` of `DummyStartProducingError`. -/
def src2E : NodeModel := ⟨"source2", [], .ok⟩

/-- `process1` of `DummyStartProducingError`: start returns IOError. -/
def proc1E : NodeModel := ⟨"process1", ["source1"], .ioError "xxx"⟩

/-- `process2` of `DummyStartProducingError`. -/
def proc2E : NodeModel := ⟨"process2", ["process1", "source2"], .ok⟩

/-- `process3` of `DummyStartProducingError`. -/
def proc3E : NodeModel := ⟨"process3", ["process1", "source1", "process2"], .ok⟩

/-- `sink` of `DummyStartProducingError`. -/
def sinkE : NodeModel := ⟨"sink", ["process3"], .ok⟩

/-- The `DummyStartProducingError` plan, nodes in topological order. -/
def errPlan : PlanModel := ⟨[src1E, src2E, proc1E, proc2E, proc3E, sinkE], false⟩

/-- The `DummyStartProducing` plan (all starts succeed), nodes in
topological order: source1, source2, process1, process2, process3, sink. -/
def okPlan : PlanModel :=
  ⟨[⟨"source1", [], .ok⟩, ⟨"source2", [], .ok⟩,
    ⟨"process1", ["source1"], .ok⟩,
    ⟨"process2", ["process1", "source2"], .ok⟩,
    ⟨"process3", ["process1", "source1", "process2"], .ok⟩,
    ⟨"sink", ["process3"], .ok⟩], false⟩

/-! ### Helper lemmas -/

/-- Running the start loop through a prefix of nodes whose starts all
succeed accumulates exactly their labels. -/
theorem runStart_ok_prefix (xs : List NodeModel)
    (hok : ∀ n ∈ xs, n.startStatus = .ok) :
    ∀ (rest : List NodeModel) (acc : List String),
      runStart (xs ++ rest) acc
        = runStart rest ((xs.map (fun n => n.label)).reverse ++ acc) := by
  induction xs with
  | nil =>
    intro rest acc
    simp
  | cons n xs ih =>
    intro rest acc
    have hn : n.startStatus = .ok := hok n (by simp)
    have hxs : ∀ m ∈ xs, m.startStatus = .ok := fun m hm => hok m (by simp [hm])
    rw [List.cons_append, runStart, hn]
    simp only []
    rw [ih hxs rest (n.label :: acc)]
    congr 1
    simp

/-- Running the start loop over nodes whose starts all succeed returns OK,
starts every node in order and stops none. -/
theorem runStart_all_ok (l : List NodeModel)
    (hok : ∀ n ∈ l, n.startStatus = .ok) (acc : List String) :
    runStart l acc = ⟨.ok, acc.reverse ++ l.map (fun n => n.label), []⟩ := by
  have h := runStart_ok_prefix l hok [] acc
  rw [List.append_nil] at h
  rw [h, runStart]
  simp

/-- In a topologically sorted node list, every input label of a node occurs
among the labels to its left (or among the initially seen labels). -/
theorem topoSortedB_split :
    ∀ (l1 : List NodeModel) (seen : List String) (v : NodeModel)
      (l2 : List NodeModel),
      topoSortedB seen (l1 ++ v :: l2) = true →
      ∀ lab ∈ v.inputs, lab ∈ l1.map (fun n => n.label) ∨ lab ∈ seen := by
  intro l1
  induction l1 with
  | nil =>
    intro seen v l2 h lab hlab
    rw [List.nil_append, topoSortedB, Bool.and_eq_true] at h
    have hall := h.1
    rw [List.all_eq_true] at hall
    have hc := hall lab hlab
    right
    simpa using hc
  | cons n l1 ih =>
    intro seen v l2 h lab hlab
    rw [List.cons_append, topoSortedB, Bool.and_eq_true] at h
    have hm := ih (n.label :: seen) v l2 h.2 lab hlab
    rcases hm with h1 | h2
    · left
      simp [h1]
    · rcases List.mem_cons.mp h2 with h3 | h4
      · left
        simp [h3]
      · right
        exact h4

/-- In a duplicate-free list, the index of `a` is strictly smaller than the
index of `b` whenever `[a, b]` is a sublist. -/
theorem sublist_pair_indexOf_lt {α : Type} [DecidableEq α] :
    ∀ (l : List α), l.Nodup → ∀ a b, List.Sublist [a, b] l →
      l.indexOf a < l.indexOf b := by
  intro l
  induction l with
  | nil =>
    intro _ a b h
    exact absurd (List.sublist_nil.mp h) (by simp)
  | cons x t ih =>
    intro hnd a b h
    have hxt : x ∉ t := (List.nodup_cons.mp hnd).1
    have hndt : t.Nodup := (List.nodup_cons.mp hnd).2
    cases h with
    | cons _ h2 =>
      have ha : a ∈ t := h2.subset (by simp)
      have hb : b ∈ t := h2.subset (by simp)
      have hxa : x ≠ a := fun he => hxt (he ▸ ha)
      have hxb : x ≠ b := fun he => hxt (he ▸ hb)
      rw [List.indexOf_cons, List.indexOf_cons,
        show (x == a) = false from beq_eq_false_iff_ne.mpr hxa,
        show (x == b) = false from beq_eq_false_iff_ne.mpr hxb]
      simp only [Bool.cond_false]
      exact Nat.succ_lt_succ (ih hndt a b h2)
    | cons₂ _ h2 =>
      have hb : b ∈ t := h2.subset (by simp)
      have hab : x ≠ b := fun he => hxt (he ▸ hb)
      rw [List.indexOf_cons, List.indexOf_cons,
        show (x == x) = true from beq_self_eq_true x,
        show (x == b) = false from beq_eq_false_iff_ne.mpr hab]
      simp only [Bool.cond_true, Bool.cond_false]
      exact Nat.succ_pos _

/-- If `x` occurs in `s` then `[x, y]` is a sublist of `s ++ y :: r`. -/
theorem pair_sublist_of_split {α : Type} (s r : List α) (x y : α)
    (hx : x ∈ s) :
    List.Sublist [x, y] (s ++ y :: r) := by
  obtain ⟨s1, s2, rfl⟩ := List.append_of_mem hx
  have h1 : List.Sublist [x] (s1 ++ x :: s2) := by
    refine List.Sublist.trans ?_ (List.sublist_append_right s1 (x :: s2))
    exact List.cons_sublist_cons.mpr (List.nil_sublist s2)
  have h2 : List.Sublist [y] (y :: r) :=
    List.cons_sublist_cons.mpr (List.nil_sublist r)
  have h3 := List.Sublist.append h1 h2
  exact h3

/-! ### Merge-algebra helper lemmas -/

theorem MergeFrom_pos (a b : VarStdState) (ha : a.count ≠ 0)
    (hb : b.count ≠ 0) :
    a.MergeFrom b =
      ⟨a.count + b.count,
        ((a.count : ℚ) * a.mean + (b.count : ℚ) * b.mean)
          / ((a.count + b.count : ℤ) : ℚ),
        a.m2 + b.m2 + (a.mean - b.mean) ^ 2
          * ((a.count : ℚ) * (b.count : ℚ)) / ((a.count + b.count : ℤ) : ℚ)⟩ := by
  rw [VarStdState.MergeFrom, if_neg hb, if_neg ha]
  rfl

theorem MergeFrom_comm (a b : VarStdState) (ha : WFState a) (hb : WFState b) :
    a.MergeFrom b = b.MergeFrom a := by
  by_cases hb0 : b.count = 0
  · by_cases ha0 : a.count = 0
    · rw [VarStdState.MergeFrom, if_pos hb0, VarStdState.MergeFrom, if_pos ha0,
        ha.2 ha0, hb.2 hb0]
    · rw [VarStdState.MergeFrom, if_pos hb0, VarStdState.MergeFrom, if_neg ha0,
        if_pos hb0]
  · by_cases ha0 : a.count = 0
    · rw [VarStdState.MergeFrom, if_neg hb0, if_pos ha0,
        VarStdState.MergeFrom, if_pos ha0]
    · rw [MergeFrom_pos a b ha0 hb0, MergeFrom_pos b a hb0 ha0]
      simp only [VarStdState.mk.injEq]
      refine ⟨by omega, by push_cast; ring, by push_cast; ring⟩

theorem MergeFrom_identity (a : VarStdState) (ha : WFState a) :
    VarStdState.fresh.MergeFrom a = a ∧ a.MergeFrom VarStdState.fresh = a := by
  constructor
  · by_cases ha0 : a.count = 0
    · rw [VarStdState.MergeFrom, if_pos ha0, ha.2 ha0]
    · rw [VarStdState.MergeFrom, if_neg ha0]
      simp [VarStdState.fresh]
  · rw [VarStdState.MergeFrom]
    simp [VarStdState.fresh]

theorem MergeFrom_assoc (a b c : VarStdState) (ha : 0 ≤ a.count)
    (hb : 0 ≤ b.count) (hc : 0 ≤ c.count) :
    (a.MergeFrom b).MergeFrom c = a.MergeFrom (b.MergeFrom c) := by
  by_cases hb0 : b.count = 0
  · by_cases hc0 : c.count = 0
    · rw [show a.MergeFrom b = a from by rw [VarStdState.MergeFrom, if_pos hb0],
        show b.MergeFrom c = b from by rw [VarStdState.MergeFrom, if_pos hc0]]
      rw [VarStdState.MergeFrom, if_pos hc0, VarStdState.MergeFrom, if_pos hb0]
    · rw [show a.MergeFrom b = a from by rw [VarStdState.MergeFrom, if_pos hb0],
        show b.MergeFrom c = c from by
          rw [VarStdState.MergeFrom, if_neg hc0, if_pos hb0]]
  · by_cases hc0 : c.count = 0
    · rw [show (a.MergeFrom b).MergeFrom c = a.MergeFrom b from by
          rw [VarStdState.MergeFrom, if_pos hc0],
        show b.MergeFrom c = b from by rw [VarStdState.MergeFrom, if_pos hc0]]
    · by_cases ha0 : a.count = 0
      · have hbc : (b.MergeFrom c).count = b.count + c.count := by
          rw [MergeFrom_pos b c hb0 hc0]
        have hab : a.MergeFrom b = b := by
          rw [VarStdState.MergeFrom, if_neg hb0, if_pos ha0]
        rw [hab, show a.MergeFrom (b.MergeFrom c) = b.MergeFrom c from by
          rw [VarStdState.MergeFrom, if_neg (by rw [hbc]; omega), if_pos ha0]]
      · -- all three positive
        have h12 : (a.MergeFrom b).count = a.count + b.count := by
          rw [MergeFrom_pos a b ha0 hb0]
        have h23 : (b.MergeFrom c).count = b.count + c.count := by
          rw [MergeFrom_pos b c hb0 hc0]
        have q1 : ((a.count : ℚ)) ≠ 0 := Int.cast_ne_zero.mpr ha0
        have q2 : ((b.count : ℚ)) ≠ 0 := Int.cast_ne_zero.mpr hb0
        have q3 : ((c.count : ℚ)) ≠ 0 := Int.cast_ne_zero.mpr hc0
        have q12 : ((a.count + b.count : ℤ) : ℚ) ≠ 0 :=
          Int.cast_ne_zero.mpr (by omega)
        have q23 : ((b.count + c.count : ℤ) : ℚ) ≠ 0 :=
          Int.cast_ne_zero.mpr (by omega)
        have q123 : ((a.count + b.count + c.count : ℤ) : ℚ) ≠ 0 :=
          Int.cast_ne_zero.mpr (by omega)
        rw [MergeFrom_pos a b ha0 hb0, MergeFrom_pos b c hb0 hc0]
        rw [MergeFrom_pos _ c (by show a.count + b.count ≠ 0; omega) hc0,
          MergeFrom_pos a _ ha0 (by show b.count + c.count ≠ 0; omega)]
        simp only [h12, h23, VarStdState.mk.injEq]
        refine ⟨by omega, ?_, ?_⟩
        · push_cast at q12 q23 q123 ⊢
          field_simp
          ring
        · push_cast at q12 q23 q123 ⊢
          field_simp
          ring

theorem sum_sq_dev (c : ℚ) : ∀ vs : List ℚ,
    (vs.map (fun v => (v - c) ^ 2)).sum
      = (vs.map (fun v => v ^ 2)).sum - 2 * c * vs.sum + (vs.length : ℚ) * c ^ 2 := by
  intro vs
  induction vs with
  | nil => simp
  | cons v vs ih =>
    simp only [List.map_cons, List.sum_cons, List.length_cons, ih]
    push_cast
    ring

theorem ConsumeTwoPass_stats (s : VarStdState) (vs : List (Option ℚ))
    (h : (vs.filterMap id).length ≠ 0) :
    s.ConsumeTwoPass vs =
      ⟨((vs.filterMap id).length : ℤ),
        (vs.filterMap id).sum / ((vs.filterMap id).length : ℚ),
        ((vs.filterMap id).map (fun v => v ^ 2)).sum
          - (vs.filterMap id).sum ^ 2 / ((vs.filterMap id).length : ℚ)⟩ := by
  rw [VarStdState.ConsumeTwoPass]
  simp only [h, if_false, if_neg h]
  have hq : ((vs.filterMap id).length : ℚ) ≠ 0 := by
    exact_mod_cast h
  refine congrArg₂ _ (congrArg₂ _ rfl rfl) ?_
  rw [sum_sq_dev]
  field_simp
  ring

theorem ConsumeTwoPass_append (xs ys : List (Option ℚ)) :
    (VarStdState.fresh.ConsumeTwoPass xs).MergeFrom
        (VarStdState.fresh.ConsumeTwoPass ys)
      = VarStdState.fresh.ConsumeTwoPass (xs ++ ys) := by
  by_cases hx : (xs.filterMap id).length = 0
  · have hxe : VarStdState.fresh.ConsumeTwoPass xs = VarStdState.fresh := by
      rw [VarStdState.ConsumeTwoPass]
      simp [hx]
    have hfm : (xs ++ ys).filterMap id = ys.filterMap id := by
      rw [List.filterMap_append, List.length_eq_zero.mp hx, List.nil_append]
    by_cases hy : (ys.filterMap id).length = 0
    · have hye : VarStdState.fresh.ConsumeTwoPass ys = VarStdState.fresh := by
        rw [VarStdState.ConsumeTwoPass]
        simp [hy]
      rw [hxe, hye, VarStdState.ConsumeTwoPass]
      simp [hfm, hy, VarStdState.MergeFrom, VarStdState.fresh]
    · rw [hxe, (MergeFrom_identity _ ?wf).1]
      case wf =>
        constructor
        · rw [ConsumeTwoPass_stats _ ys hy]
          positivity
        · intro h0
          rw [ConsumeTwoPass_stats _ ys hy] at h0
          have h1 : ((ys.filterMap id).length : ℤ) = 0 := h0
          exact absurd (by exact_mod_cast h1) hy
      rw [VarStdState.ConsumeTwoPass, VarStdState.ConsumeTwoPass]
      simp only [hfm]
  · by_cases hy : (ys.filterMap id).length = 0
    · have hye : VarStdState.fresh.ConsumeTwoPass ys = VarStdState.fresh := by
        rw [VarStdState.ConsumeTwoPass]
        simp [hy]
      have hfm : (xs ++ ys).filterMap id = xs.filterMap id := by
        rw [List.filterMap_append, List.length_eq_zero.mp hy, List.append_nil]
      rw [hye, show (VarStdState.fresh.ConsumeTwoPass xs).MergeFrom
            VarStdState.fresh = VarStdState.fresh.ConsumeTwoPass xs from by
          rw [VarStdState.MergeFrom,
            if_pos (show VarStdState.fresh.count = 0 from rfl)]]
      simp only [VarStdState.ConsumeTwoPass, hfm]
    · have hxy : ((xs ++ ys).filterMap id).length ≠ 0 := by
        rw [List.filterMap_append, List.length_append]
        omega
    -- main case
      rw [ConsumeTwoPass_stats _ xs hx, ConsumeTwoPass_stats _ ys hy,
        ConsumeTwoPass_stats _ (xs ++ ys) hxy,
        MergeFrom_pos _ _ (by show ((xs.filterMap id).length : ℤ) ≠ 0; exact_mod_cast hx)
          (by show ((ys.filterMap id).length : ℤ) ≠ 0; exact_mod_cast hy)]
      have hdisj : (xs ++ ys).filterMap id = xs.filterMap id ++ ys.filterMap id :=
        List.filterMap_append xs ys id
      have q1 : ((xs.filterMap id).length : ℚ) ≠ 0 := by exact_mod_cast hx
      have q2 : ((ys.filterMap id).length : ℚ) ≠ 0 := by exact_mod_cast hy
      have q12 : ((xs.filterMap id).length : ℚ) + ((ys.filterMap id).length : ℚ) ≠ 0 := by
        have h1 : 0 < (xs.filterMap id).length := Nat.pos_of_ne_zero hx
        have h2 : 0 < (ys.filterMap id).length := Nat.pos_of_ne_zero hy
        positivity
      simp only [hdisj, List.length_append, List.sum_append, List.map_append,
        VarStdState.mk.injEq]
      refine ⟨?_, ?_⟩
      · push_cast
        field_simp
      · push_cast
        field_simp
        ring

theorem foldl_merge_consume (bs : List (List (Option ℚ))) :
    ∀ acc : List (Option ℚ),
      (bs.map (fun b => VarStdState.fresh.ConsumeTwoPass b)).foldl
          VarStdState.MergeFrom (VarStdState.fresh.ConsumeTwoPass acc)
        = VarStdState.fresh.ConsumeTwoPass (acc ++ bs.flatten) := by
  induction bs with
  | nil =>
    intro acc
    simp
  | cons b bs ih =>
    intro acc
    rw [List.map_cons, List.foldl_cons, ConsumeTwoPass_append, ih (acc ++ b),
      List.flatten_cons, List.append_assoc]

-- helpers for evaluating Int.log and roundB64
theorem intLog2_eq (q : ℚ) (e : ℤ) (h0 : 0 < q) (h1 : (2 : ℚ) ^ e ≤ q)
    (h2 : q < (2 : ℚ) ^ (e + 1)) : Int.log 2 q = e := by
  have hb : 1 < (2 : ℕ) := by norm_num
  have hc : (((2 : ℕ) : ℚ)) = (2 : ℚ) := by norm_num
  have hle : e ≤ Int.log 2 q := by
    rw [← Int.zpow_le_iff_le_log hb h0, hc]
    exact h1
  have hlt : Int.log 2 q < e + 1 := by
    rw [← Int.lt_zpow_iff_log_lt hb h0, hc]
    exact h2
  omega

theorem roundHalfEven_lt (q : ℚ) (f : ℤ) (hf : ⌊q⌋ = f)
    (hr : q - (f : ℚ) < 1 / 2) : roundHalfEven q = f := by
  rw [roundHalfEven, hf, if_pos hr]

theorem roundHalfEven_gt (q : ℚ) (f : ℤ) (hf : ⌊q⌋ = f)
    (hr : 1 / 2 < q - (f : ℚ)) : roundHalfEven q = f + 1 := by
  rw [roundHalfEven, hf, if_neg (by linarith), if_pos hr]

theorem roundB64_pos_eval (q : ℚ) (e : ℤ) (h0 : 0 < q)
    (h1 : (2 : ℚ) ^ e ≤ q) (h2 : q < (2 : ℚ) ^ (e + 1)) :
    roundB64 q = ((roundHalfEven (q * 2 ^ (52 - e)) : ℚ)) * 2 ^ (e - 52) := by
  rw [roundB64, if_neg (by linarith), if_pos h0, roundB64Pos,
    intLog2_eq q e h0 h1 h2]

-- the C1 counterexample computation pieces
theorem c1_state1 :
    VarStdState.fresh.ConsumeTwoPass [some 0, some 2] = ⟨2, 1, 2⟩ := by
  rw [ConsumeTwoPass_stats _ _ (by decide),
    show List.filterMap id [some (0 : ℚ), some 2] = [0, 2] from rfl]
  simp only [VarStdState.mk.injEq]
  norm_num

theorem c1_state2 :
    VarStdState.fresh.ConsumeTwoPass [some 4] = ⟨1, 4, 0⟩ := by
  rw [ConsumeTwoPass_stats _ _ (by decide),
    show List.filterMap id [some (4 : ℚ)] = [4] from rfl]
  simp only [VarStdState.mk.injEq]
  norm_num

theorem c1_seq :
    (VarStdState.fresh.ConsumeTwoPass [some 0, some 2]).ConsumeTwoPass [some 4]
      = ⟨1, 4, 0⟩ := by
  rw [ConsumeTwoPass_stats _ _ (by decide),
    show List.filterMap id [some (4 : ℚ)] = [4] from rfl]
  simp only [VarStdState.mk.injEq]
  norm_num

theorem c1_merged :
    (VarStdState.fresh.ConsumeTwoPass [some 0, some 2]).MergeFrom
        (VarStdState.fresh.ConsumeTwoPass [some 4]) = ⟨3, 2, 8⟩ := by
  rw [c1_state1, c1_state2, MergeFrom_pos _ _ (by norm_num) (by norm_num)]
  simp only [VarStdState.mk.injEq]
  norm_num

theorem c1_rb83 : roundB64 (8 / 3) = 6004799503160661 / 2 ^ 51 := by
  rw [roundB64_pos_eval (8 / 3) 1 (by norm_num) (by norm_num) (by norm_num)]
  rw [roundHalfEven_lt _ 6004799503160661 (by norm_num [Int.floor_eq_iff])
    (by norm_num)]
  norm_num


/-- Every slice the one-pass loop processes has at most `max_length`
elements. -/
theorem onePassSlices_le (w : ℕ) (arr : List (Option ℤ)) :
    ∀ c ∈ onePassSlices w arr, c.length ≤ maxLength w := by
  induction arr using onePassSlices.induct w with
  | case1 arr h =>
    rw [onePassSlices, if_pos h]
    simp
  | case2 arr h ih =>
    rw [onePassSlices, if_neg h]
    intro c hc
    rcases List.mem_cons.mp hc with rfl | hc2
    · exact List.length_take_le _ _
    · exact ih c hc2

/-- A list of integers each within `[-M, M]` sums to within
`[-len * M, len * M]`. -/
theorem sum_bounds_of_forall (M : ℤ) :
    ∀ vals : List ℤ, (∀ v ∈ vals, -M ≤ v ∧ v ≤ M) →
      -((vals.length : ℤ) * M) ≤ vals.sum ∧ vals.sum ≤ (vals.length : ℤ) * M := by
  intro vals
  induction vals with
  | nil => intro _; simp
  | cons v t ih =>
    intro h
    have hv := h v (by simp)
    have ht := ih (fun x hx => h x (by simp [hx]))
    simp only [List.sum_cons, List.length_cons]
    push_cast
    constructor <;> nlinarith [ht.1, ht.2, hv.1, hv.2]


/-- Uniqueness characterization of `Nat.sqrt` used to evaluate the model of
the correctly rounded square root at concrete inputs. -/
theorem natSqrt_eq (n s : ℕ) (h1 : s * s ≤ n) (h2 : n < (s + 1) * (s + 1)) :
    Nat.sqrt n = s := by
  have hle : s ≤ Nat.sqrt n := Nat.le_sqrt.mpr h1
  have hlt : Nat.sqrt n < s + 1 := Nat.sqrt_lt.mpr h2
  omega

/-- The one-pass (int32) consume of the array batch `[5, 6, 7]`. -/
theorem c8_onepass :
    VarStdState.fresh.ConsumeOnePass 4 [some 5, some 6, some 7] = ⟨3, 6, 2⟩ := by
  rw [VarStdState.ConsumeOnePass, VarStdState.ConsumeOnePassGo,
    if_neg (by decide)]
  simp only []
  rw [List.take_of_length_le (by decide), List.drop_eq_nil_of_le (by decide),
    if_neg (by decide)]
  rw [VarStdState.ConsumeOnePassGo,
    if_pos (show validCount ([] : List (Option ℤ)) = 0 from rfl)]
  rw [show integerVarStdState [some 5, some 6, some 7] = ⟨3, 6, 2⟩ from by
    rw [integerVarStdState]
    simp only [show List.filterMap id [some (5 : ℤ), some 6, some 7]
        = [5, 6, 7] from rfl]
    simp only [VarStdState.mk.injEq]
    norm_num]
  rw [VarStdState.MergeFrom, if_neg (by norm_num),
    if_pos (show VarStdState.fresh.count = 0 from rfl)]

/-- Merging the per-batch states of the C8 scenario: the scalar batch
(value 5, length 3) and the array batch `[5, 6, 7]` combine to count 6,
mean 11/2, m2 7/2. -/
theorem c8_merged :
    (VarStdState.fresh.MergeFrom
        (VarStdState.fresh.ConsumeScalar (some 5) 3)).MergeFrom
      (VarStdState.fresh.ConsumeOnePass 4 [some 5, some 6, some 7])
      = ⟨6, 11 / 2, 7 / 2⟩ := by
  rw [c8_onepass,
    show VarStdState.fresh.ConsumeScalar (some 5) 3 = ⟨3, 5, 0⟩ from rfl,
    show VarStdState.fresh.MergeFrom ⟨3, 5, 0⟩ = ⟨3, 5, 0⟩ from by
      rw [VarStdState.MergeFrom, if_neg (by norm_num),
        if_pos (show VarStdState.fresh.count = 0 from rfl)],
    MergeFrom_pos _ _ (by norm_num) (by norm_num)]
  simp only [VarStdState.mk.injEq]
  norm_num

/-- The binary64 value of the exact variance 7/12. -/
theorem c8_var_rounded : roundB64 (7 / 12) = 5254199565265579 / 2 ^ 53 := by
  rw [roundB64_pos_eval (7 / 12) (-1) (by norm_num) (by norm_num) (by norm_num)]
  rw [roundHalfEven_gt _ 5254199565265578 (by norm_num [Int.floor_eq_iff])
    (by norm_num)]
  norm_num

/-- The decimal literal 0.5833333333333334 denotes the same binary64
value. -/
theorem c8_var_decimal :
    roundB64 (5833333333333334 / 10 ^ 16) = 5254199565265579 / 2 ^ 53 := by
  rw [roundB64_pos_eval _ (-1) (by norm_num) (by norm_num) (by norm_num)]
  rw [roundHalfEven_lt _ 5254199565265579 (by norm_num [Int.floor_eq_iff])
    (by norm_num)]
  norm_num

/-- The decimal literal 0.7637626158259734 denotes the binary64 value
6879362064066738 / 2^53. -/
theorem c8_std_decimal :
    roundB64 (7637626158259734 / 10 ^ 16) = 6879362064066738 / 2 ^ 53 := by
  rw [roundB64_pos_eval _ (-1) (by norm_num) (by norm_num) (by norm_num)]
  rw [roundHalfEven_lt _ 6879362064066738 (by norm_num [Int.floor_eq_iff])
    (by norm_num)]
  norm_num

/-- The correctly rounded binary64 square root of the variance double. -/
theorem c8_sqrt :
    fpSqrt (5254199565265579 / 2 ^ 53) = 6879362064066738 / 2 ^ 53 := by
  rw [fpSqrt, if_neg (by norm_num)]
  simp only []
  rw [intLog2_eq _ (-1) (by norm_num) (by norm_num) (by norm_num)]
  rw [show Int.fdiv (-1) 2 = -1 from by decide]
  have hN : (5254199565265579 / 2 ^ 53 : ℚ) * 2 ^ ((104 : ℤ) - 2 * (-1))
      = ((47325622408520567324943337914368 : ℤ) : ℚ) := by
    norm_num
  rw [hN]
  rw [show sqrtNearestHE ((47325622408520567324943337914368 : ℤ) : ℚ)
      = 6879362064066738 from by
    rw [sqrtNearestHE]
    simp only [Int.floor_intCast]
    rw [show ((47325622408520567324943337914368 : ℤ).toNat)
        = 47325622408520567324943337914368 from rfl]
    rw [natSqrt_eq 47325622408520567324943337914368 6879362064066737
      (by norm_num) (by norm_num)]
    rw [if_neg (by norm_num), if_pos (by norm_num)]
    norm_num]
  norm_num

/-- 11/2 = 5.5 is exactly representable: rounding is the identity on it. -/
theorem c8_mean_rounded : roundB64 (11 / 2) = 11 / 2 := by
  rw [roundB64_pos_eval (11 / 2) 2 (by norm_num) (by norm_num) (by norm_num)]
  rw [roundHalfEven_lt _ 6192449487634432 (by norm_num [Int.floor_eq_iff])
    (by norm_num)]
  norm_num


/-! ### Claims C2, C3, C9, C10 -/

/-- C2: for every variance/stddev state and ddof, `Finalize` produces a null
double scalar exactly when `count <= ddof`, and otherwise produces the
double `m2 / (count - ddof)` for the variance kernel and its (binary64)
square root for the stddev kernel. -/
theorem C2_finalize : ∀ (rt : VarOrStd) (ddof : ℤ) (s : VarStdState),
    (Finalize rt ddof s = none ↔ s.count ≤ ddof) ∧
    (ddof < s.count →
      Finalize .Var ddof s =
        some (roundB64 (s.m2 / ((s.count : ℚ) - (ddof : ℚ)))) ∧
      Finalize .Std ddof s =
        some (fpSqrt (roundB64 (s.m2 / ((s.count : ℚ) - (ddof : ℚ)))))) := by
  intro rt ddof s
  by_cases h : s.count ≤ ddof
  · constructor
    · simp [Finalize, h]
    · intro h2
      omega
  · constructor
    · simp [Finalize, h]
    · intro _
      constructor <;> simp [Finalize, h]

/-- Witness for C2 at a concrete state: count 2, mean 3, m2 8, ddof 0. -/
theorem C2_finalize_witness : (0 : ℤ) < 2 ∧
    Finalize .Var 0 ⟨2, 3, 8⟩ =
      some (roundB64 ((8 : ℚ) / ((2 : ℚ) - (0 : ℚ)))) :=
  ⟨by decide, ((C2_finalize .Var 0 ⟨2, 3, 8⟩).2 (by decide)).1⟩

/-- C3 counterexample: `Consume` does not fold the new batch into the
existing state.  After consuming a valid scalar 5 with multiplicity 3, a
second `Consume` of the array `[4]` (two-pass path) yields a state different
from the combination of the prior state with the batch's own contribution:
the earlier contribution is discarded (the resulting count is 1, not 4). -/
theorem C3_counterexample :
    (VarStdState.fresh.ConsumeScalar (some 5) 3).ConsumeTwoPass [some 4]
      ≠ (VarStdState.fresh.ConsumeScalar (some 5) 3).MergeFrom
          (VarStdState.fresh.ConsumeTwoPass [some 4]) := by
  simp [VarStdState.ConsumeScalar, VarStdState.ConsumeTwoPass,
    VarStdState.MergeFrom, MergeVarStd, VarStdState.fresh]

/-- C3 amended: a `Consume` call on the two-pass path (and likewise on a
scalar batch) overwrites the state with the batch's own contribution — the
result does not depend on the prior state (earlier contributions are
discarded; callers consume each batch into a fresh state and combine with
`MergeFrom`).  For a scalar-valued (broadcast) input the effective
multiplicity is the batch length: a valid scalar `v` in a batch of length
`L` yields count `L`, mean `v`, m2 `0`. -/
theorem C3_amended :
    (∀ (s : VarStdState) (arr : List (Option ℚ)), 0 < validCount arr →
        s.ConsumeTwoPass arr = VarStdState.fresh.ConsumeTwoPass arr) ∧
    (∀ (s : VarStdState) (v : ℚ) (len : ℤ),
        s.ConsumeScalar (some v) len = ⟨len, v, 0⟩) := by
  constructor
  · intro s arr h
    simp only [validCount] at h
    have h0 : ¬ (arr.filterMap id).length = 0 := by omega
    simp [VarStdState.ConsumeTwoPass, h0]
  · intro s v len
    rfl

/-- Witness for C3 amended: consuming the array `[4]` from state
(3, 5, 0) gives the same result as consuming it from a fresh state. -/
theorem C3_amended_witness : 0 < validCount [some (4 : ℚ)] ∧
    (⟨3, 5, 0⟩ : VarStdState).ConsumeTwoPass [some 4]
      = VarStdState.fresh.ConsumeTwoPass [some 4] :=
  ⟨by decide, C3_amended.1 ⟨3, 5, 0⟩ [some 4] (by decide)⟩

/-- C9: consuming an array whose valid (non-null) count is zero leaves the
variance/stddev state completely unchanged, on both the two-pass path and
the one-pass path. -/
theorem C9_null_array_noop : ∀ s : VarStdState,
    (∀ arr : List (Option ℚ), validCount arr = 0 → s.ConsumeTwoPass arr = s) ∧
    (∀ (w : ℕ) (arr : List (Option ℤ)), validCount arr = 0 →
      s.ConsumeOnePass w arr = s) := by
  intro s
  constructor
  · intro arr h
    simp only [validCount] at h
    simp [VarStdState.ConsumeTwoPass, h]
  · intro w arr h
    rw [VarStdState.ConsumeOnePass, VarStdState.ConsumeOnePassGo, if_pos h]

/-- Witness for C9: an all-null single-element array leaves the state
(5, 1, 2) unchanged. -/
theorem C9_null_array_noop_witness : validCount ([none] : List (Option ℚ)) = 0 ∧
    (⟨5, 1, 2⟩ : VarStdState).ConsumeTwoPass [none] = ⟨5, 1, 2⟩ :=
  ⟨by decide, (C9_null_array_noop ⟨5, 1, 2⟩).1 [none] (by decide)⟩

/-- C10: every registered variance kernel and every registered stddev kernel
(one per supported numeric input type) declares output type float64, and
`Finalize` always produces a double scalar — either null (exactly when
`count <= ddof`) or a valid double — never a value of the input type. -/
theorem C10_output_float64 :
    (varianceKernels.all (fun k => k.outType = .float64) = true) ∧
    (stddevKernels.all (fun k => k.outType = .float64) = true) ∧
    ∀ (rt : VarOrStd) (ddof : ℤ) (s : VarStdState),
      (Finalize rt ddof s = none ∧ s.count ≤ ddof) ∨
      ∃ q : ℚ, Finalize rt ddof s = some q := by
  refine ⟨by decide, by decide, ?_⟩
  intro rt ddof s
  by_cases h : s.count ≤ ddof
  · exact Or.inl ⟨by simp [Finalize, h], h⟩
  · refine Or.inr ?_
    cases rt
    · exact ⟨roundB64 (s.m2 / ((s.count : ℚ) - (ddof : ℚ))),
        by simp [Finalize, h]⟩
    · exact ⟨fpSqrt (roundB64 (s.m2 / ((s.count : ℚ) - (ddof : ℚ)))),
        by simp [Finalize, h]⟩

/-! ### Claims C4 and C7 (plan lifecycle) -/

/-- C4: if a node's start callback fails during `StartProducing`, the plan
returns that first error; exactly the nodes started successfully before the
failing one receive their stop callback (not the failing node, not any
never-started node), in reverse of the order in which they were started.
The start order is `p.nodes.reverse` (reverse topological); `xs` are the
nodes started before the failing node `f`. -/
theorem C4_start_error_unwinds (p : PlanModel) (xs ys : List NodeModel)
    (f : NodeModel) (e : Status)
    (hflag : p.startedFlag = false)
    (hseq : p.nodes.reverse = xs ++ f :: ys)
    (hok : ∀ n ∈ xs, n.startStatus = .ok)
    (hf : f.startStatus = e) (he : e ≠ .ok) :
    (StartProducing p).1 =
      ⟨e, xs.map (fun n => n.label) ++ [f.label],
        (xs.map (fun n => n.label)).reverse⟩ := by
  rw [StartProducing, if_neg (by simp [hflag])]
  rw [hseq, runStart_ok_prefix xs hok, runStart]
  cases hsf : f.startStatus with
  | ok => exact absurd (hf ▸ hsf.symm) (by exact fun h => he h.symm)
  | invalid m =>
    rw [hf] at hsf
    subst hsf
    simp
  | ioError m =>
    rw [hf] at hsf
    subst hsf
    simp
  | notImplemented m =>
    rw [hf] at hsf
    subst hsf
    simp

/-- Witness for C4: the `DummyStartProducingError` graph.  `process1` fails
with IOError after sink, process3, process2 started; the run returns the
IOError, `started` is sink, process3, process2, process1 and `stopped` is
process2, process3, sink. -/
theorem C4_start_error_unwinds_witness :
    errPlan.startedFlag = false ∧
    (StartProducing errPlan).1 =
      ⟨.ioError "xxx", ["sink", "process3", "process2", "process1"],
        ["process2", "process3", "sink"]⟩ := by
  constructor
  · rfl
  · have h := C4_start_error_unwinds errPlan [sinkE, proc3E, proc2E]
      [src2E, src1E] proc1E (.ioError "xxx") rfl (by decide) (by decide) rfl
      (by decide)
    rw [h]
    decide

/-- C7: calling `StartProducing` again after any prior start of the same
plan — whether it was merely started, or started and then stopped — returns
an Invalid error whose message mentions "restarted". -/
theorem C7_restart_invalid : ∀ p : PlanModel,
    (∃ m, ((StartProducing (StartProducing p).2).1).result = .invalid m ∧
      ∃ pre post, m = pre ++ "restarted" ++ post) ∧
    (∃ m, ((StartProducing (StopProducing (StartProducing p).2).2).1).result
        = .invalid m ∧ ∃ pre post, m = pre ++ "restarted" ++ post) := by
  intro p
  have hflag : (StartProducing p).2.startedFlag = true := by
    by_cases h : p.startedFlag <;> simp [StartProducing, h]
  have key : ∀ q : PlanModel, q.startedFlag = true →
      ∃ m, (StartProducing q).1.result = .invalid m ∧
        ∃ pre post, m = pre ++ "restarted" ++ post := by
    intro q hq
    refine ⟨"ExecPlan cannot be restarted", ?_, "ExecPlan cannot be ", "", rfl⟩
    rw [StartProducing, if_pos hq]
  have hstop : (StopProducing (StartProducing p).2).2 = (StartProducing p).2 :=
    rfl
  exact ⟨key _ hflag, by rw [hstop]; exact key _ hflag⟩

/-- C5: for a validated plan taken through `StartProducing` and then
`StopProducing`, start callbacks run in reverse topological order and stop
callbacks in forward topological order: for every pair `(u, v)` where `v`
consumes `u`, `v` starts strictly before `u` and `u` stops strictly before
`v`. -/
theorem C5_start_stop_order (p : PlanModel) (hflag : p.startedFlag = false)
    (htopo : TopoSorted p.nodes)
    (hnd : (p.nodes.map (fun n => n.label)).Nodup)
    (hok : ∀ n ∈ p.nodes, n.startStatus = .ok)
    (u v : NodeModel) (hv : v ∈ p.nodes)
    (hcons : u.label ∈ v.inputs) :
    ((StartProducing p).1.started.indexOf v.label
      < (StartProducing p).1.started.indexOf u.label) ∧
    ((StopProducing p).1.indexOf u.label
      < (StopProducing p).1.indexOf v.label) := by
  obtain ⟨l1, l2, hsplit⟩ := List.append_of_mem hv
  have hlab : u.label ∈ l1.map (fun n => n.label) := by
    have hm := topoSortedB_split l1 [] v l2 (by rw [← hsplit]; exact htopo)
      u.label hcons
    rcases hm with h | h
    · exact h
    · exact absurd h (by simp)
  have hmap : p.nodes.map (fun n => n.label)
      = l1.map (fun n => n.label) ++ v.label :: l2.map (fun n => n.label) := by
    rw [hsplit]
    simp
  have hsub : List.Sublist [u.label, v.label]
      (p.nodes.map (fun n => n.label)) := by
    rw [hmap]
    exact pair_sublist_of_split _ _ _ _ hlab
  have hstop : (StopProducing p).1 = p.nodes.map (fun n => n.label) := rfl
  have hstart : (StartProducing p).1.started
      = (p.nodes.map (fun n => n.label)).reverse := by
    rw [StartProducing, if_neg (by simp [hflag])]
    rw [runStart_all_ok p.nodes.reverse (fun n hn => hok n (by simpa using hn))]
    simp
  constructor
  · rw [hstart]
    refine sublist_pair_indexOf_lt _ (by simpa using hnd) _ _ ?_
    have h4 := hsub.reverse
    simpa using h4
  · rw [hstop]
    exact sublist_pair_indexOf_lt _ hnd _ _ hsub

/-- Witness for C5: the `DummyStartProducing` graph; `process1` consumes
`source1`, so `process1` starts strictly before `source1` and `source1`
stops strictly before `process1`. -/
theorem C5_start_stop_order_witness :
    TopoSorted okPlan.nodes ∧
    ((StartProducing okPlan).1.started.indexOf "process1"
      < (StartProducing okPlan).1.started.indexOf "source1") ∧
    ((StopProducing okPlan).1.indexOf "source1"
      < (StopProducing okPlan).1.indexOf "process1") :=
  ⟨(by decide : topoSortedB [] okPlan.nodes = true),
    C5_start_stop_order okPlan rfl
      (by exact (by decide : topoSortedB [] okPlan.nodes = true))
      (by decide) (by decide)
      ⟨"source1", [], .ok⟩ ⟨"process1", ["source1"], .ok⟩ (by decide)
      (by decide)⟩

/-! ### Claim C1 -/

/-- C1 counterexample: the partition clause of the claim fails as stated.
Consuming the batch sequence `[[0,2],[4]]` into a single state (iterated
`Consume`) finalizes differently from consuming each of its two subsequences
into its own state and merging: iterated two-pass `Consume` overwrites, so
the single state retains only the last batch. -/
theorem C1_counterexample :
    Finalize .Var 0
        ((VarStdState.fresh.ConsumeTwoPass [some 0, some 2]).ConsumeTwoPass
          [some 4])
      ≠ Finalize .Var 0
        ((VarStdState.fresh.ConsumeTwoPass [some 0, some 2]).MergeFrom
          (VarStdState.fresh.ConsumeTwoPass [some 4])) := by
  rw [c1_seq, c1_merged]
  rw [show Finalize .Var 0 ⟨1, 4, 0⟩ = some (roundB64 0) from by
    rw [Finalize, if_neg (by norm_num)]
    norm_num]
  rw [show Finalize .Var 0 ⟨3, 2, 8⟩ = some (roundB64 (8 / 3)) from by
    rw [Finalize, if_neg (by norm_num)]
    norm_num]
  rw [c1_rb83, show roundB64 0 = 0 from by rw [roundB64, if_pos rfl]]
  norm_num

/-- C1 amended: `MergeFrom` is commutative on well-formed states,
associative on states with nonnegative counts, and a freshly-initialized
state is its identity; and consuming each BATCH (rather than each multi-batch
subsequence) into its own fresh state and merging the per-batch states with
`MergeFrom`, in order, finalizes identically to consuming the concatenation
of the batches' values as one array into a single state (exactly, in the
exact-rational model of double arithmetic). -/
theorem C1_amended :
    (∀ a b : VarStdState, WFState a → WFState b →
      a.MergeFrom b = b.MergeFrom a) ∧
    (∀ a b c : VarStdState, 0 ≤ a.count → 0 ≤ b.count → 0 ≤ c.count →
      (a.MergeFrom b).MergeFrom c = a.MergeFrom (b.MergeFrom c)) ∧
    (∀ a : VarStdState, WFState a →
      VarStdState.fresh.MergeFrom a = a ∧ a.MergeFrom VarStdState.fresh = a) ∧
    (∀ (bs : List (List (Option ℚ))) (rt : VarOrStd) (ddof : ℤ),
      Finalize rt ddof
          ((bs.map (fun b => VarStdState.fresh.ConsumeTwoPass b)).foldl
            VarStdState.MergeFrom VarStdState.fresh)
        = Finalize rt ddof (VarStdState.fresh.ConsumeTwoPass bs.flatten)) := by
  refine ⟨MergeFrom_comm, MergeFrom_assoc, MergeFrom_identity, ?_⟩
  intro bs rt ddof
  have h := foldl_merge_consume bs []
  rw [show VarStdState.fresh.ConsumeTwoPass [] = VarStdState.fresh from rfl] at h
  rw [h, List.nil_append]

/-- Witness for C1 amended: commutativity at the concrete well-formed states
(1, 2, 0) and (2, 3, 1). -/
theorem C1_amended_witness :
    WFState ⟨1, 2, 0⟩ ∧ WFState ⟨2, 3, 1⟩ ∧
    (⟨1, 2, 0⟩ : VarStdState).MergeFrom ⟨2, 3, 1⟩
      = (⟨2, 3, 1⟩ : VarStdState).MergeFrom ⟨1, 2, 0⟩ :=
  ⟨⟨by norm_num, fun h => absurd h (by norm_num)⟩,
    ⟨by norm_num, fun h => absurd h (by norm_num)⟩,
    C1_amended.1 ⟨1, 2, 0⟩ ⟨2, 3, 1⟩
      ⟨by norm_num, fun h => absurd h (by norm_num)⟩
      ⟨by norm_num, fun h => absurd h (by norm_num)⟩⟩

/-! ### Claim C6 -/

/-- C6 counterexample: the claim that the "sum of squared values" is held in
a 64-bit integer without overflow is false: for uint32 a single valid element
4294967295 — a slice well within the `max_length 4 = 2^31` bound — already
has a square sum of 18446744065119617025, exceeding the largest int64
(2^63 - 1).  (The source accumulates squares into a 128-bit integer:
`aggregate_var_std.cc` imports `int128_t` from `arrow/util/int128_internal.h`;
the source comment at lines 73-75 claims int64 only for the sum of values.) -/
theorem C6_counterexample :
    (([some (4294967295 : ℤ)] : List (Option ℤ)).length ≤ maxLength 4) ∧
    (∀ v ∈ ([some (4294967295 : ℤ)] : List (Option ℤ)).filterMap id,
        0 ≤ v ∧ v < 2 ^ 32) ∧
    ¬ (((([some (4294967295 : ℤ)] : List (Option ℤ)).filterMap id).map
        (fun v => v * v)).sum < 2 ^ 63) := by
  refine ⟨by decide, by decide, by decide⟩

/-- C6 amended: the one-pass `Consume` processes the input in slices of at
most `2^(63 - 8w)` elements for element width `w` bytes, and under that
slice bound the sum of the values of a slice cannot overflow a 64-bit
integer (it stays strictly within `(-2^63, 2^63)`), for any signed or
unsigned input values of width at most 4 bytes; the sum of squared values
exceeds 64 bits in general but cannot overflow the 128-bit accumulator the
implementation uses (it stays below `2^127`). -/
theorem C6_amended :
    (∀ (w : ℕ) (arr : List (Option ℤ)), ∀ c ∈ onePassSlices w arr,
        c.length ≤ maxLength w) ∧
    (∀ w : ℕ, 1 ≤ w → w ≤ 4 → ∀ (signed : Bool) (vals : List ℤ),
      vals.length ≤ maxLength w →
      (∀ v ∈ vals, if signed then -(2 ^ (8 * w - 1)) ≤ v ∧ v < 2 ^ (8 * w - 1)
        else 0 ≤ v ∧ v < 2 ^ (8 * w)) →
      (-(2 ^ 63) < vals.sum ∧ vals.sum < 2 ^ 63) ∧
      (vals.map (fun v => v * v)).sum < 2 ^ 127) := by
  constructor
  · exact onePassSlices_le
  · intro w hw1 hw4 signed vals hlen hrange
    -- uniform bounds: every value within [-M, M] with M = 2^(8w) - 1,
    -- every square at most 2^(16w) - 1
    have hMpos : (0 : ℤ) < 2 ^ (8 * w) := pow_pos (by norm_num) _
    have hM1pos : (0 : ℤ) < 2 ^ (8 * w - 1) := pow_pos (by norm_num) _
    have hhalf : (2 : ℤ) ^ (8 * w - 1) * 2 = 2 ^ (8 * w) := by
      rw [show (2 : ℤ) ^ (8 * w - 1) * 2 = 2 ^ (8 * w - 1) * 2 ^ 1 from by ring,
        ← pow_add]
      congr 1
      omega
    have hval : ∀ v ∈ vals, -(2 ^ (8 * w) - 1) ≤ v ∧ v ≤ 2 ^ (8 * w) - 1 := by
      intro v hv
      have h := hrange v hv
      cases signed with
      | true =>
        rw [if_pos rfl] at h
        constructor <;> nlinarith [h.1, h.2]
      | false =>
        rw [if_neg (by simp)] at h
        constructor <;> nlinarith [h.1, h.2]
    have hsq : ∀ v ∈ vals, -(2 ^ (16 * w) - 1) ≤ v * v ∧ v * v ≤ 2 ^ (16 * w) - 1 := by
      intro v hv
      have h := hval v hv
      have hsqr : (2 : ℤ) ^ (8 * w) * 2 ^ (8 * w) = 2 ^ (16 * w) := by
        rw [← pow_add]
        congr 1
        omega
      constructor
      · nlinarith [mul_self_nonneg v, pow_pos (show (0:ℤ) < 2 by norm_num) (16 * w)]
      · nlinarith [h.1, h.2, hMpos]
    have hcast : (vals.length : ℤ) ≤ 2 ^ (63 - 8 * w) := by
      have := hlen
      rw [maxLength] at this
      exact_mod_cast this
    have hsum := sum_bounds_of_forall (2 ^ (8 * w) - 1) vals hval
    have hsum2 := sum_bounds_of_forall (2 ^ (16 * w) - 1) (vals.map (fun v => v * v))
      (by
        intro x hx
        obtain ⟨v, hv, rfl⟩ := List.mem_map.mp hx
        exact hsq v hv)
    have hlen2 : ((vals.map (fun v => v * v)).length : ℤ) = (vals.length : ℤ) := by
      rw [List.length_map]
    have hbound1 : (vals.length : ℤ) * (2 ^ (8 * w) - 1) ≤
        2 ^ (63 - 8 * w) * (2 ^ (8 * w) - 1) := by
      have hnn : (0 : ℤ) ≤ 2 ^ (8 * w) - 1 := by omega
      exact mul_le_mul_of_nonneg_right hcast hnn
    have hsplit1 : (2 : ℤ) ^ (63 - 8 * w) * (2 ^ (8 * w) - 1)
        = 2 ^ 63 - 2 ^ (63 - 8 * w) := by
      rw [mul_sub, mul_one, ← pow_add]
      congr 2
      omega
    have hp1 : (0 : ℤ) < 2 ^ (63 - 8 * w) := pow_pos (by norm_num) _
    have hbound2 : ((vals.map (fun v => v * v)).length : ℤ) * (2 ^ (16 * w) - 1) ≤
        2 ^ (63 - 8 * w) * (2 ^ (16 * w) - 1) := by
      rw [hlen2]
      have hnn : (0 : ℤ) ≤ 2 ^ (16 * w) - 1 := by
        have := pow_pos (show (0:ℤ) < 2 by norm_num) (16 * w)
        omega
      exact mul_le_mul_of_nonneg_right hcast hnn
    have hsplit2 : (2 : ℤ) ^ (63 - 8 * w) * (2 ^ (16 * w) - 1)
        = 2 ^ (63 + 8 * w) - 2 ^ (63 - 8 * w) := by
      rw [mul_sub, mul_one, ← pow_add]
      congr 2
      omega
    have hsmall : (2 : ℤ) ^ (63 + 8 * w) ≤ 2 ^ 95 := by
      apply pow_le_pow_right₀ (by norm_num)
      omega
    have h95 : (2 : ℤ) ^ 95 < 2 ^ 127 := by norm_num
    refine ⟨⟨?_, ?_⟩, ?_⟩
    · nlinarith [hsum.1, hbound1, hsplit1, hp1]
    · nlinarith [hsum.2, hbound1, hsplit1, hp1]
    · nlinarith [hsum2.2, hbound2, hsplit2, hp1, hsmall, h95]

/-- Witness for C6 amended: width 4, unsigned, the one-element slice `[3]`. -/
theorem C6_amended_witness :
    (1 ≤ 4 ∧ (4 : ℕ) ≤ 4 ∧ ([(3 : ℤ)] : List ℤ).length ≤ maxLength 4 ∧
      (∀ v ∈ ([(3 : ℤ)] : List ℤ), 0 ≤ v ∧ v < 2 ^ (8 * 4))) ∧
    (-(2 ^ 63) < ([(3 : ℤ)] : List ℤ).sum ∧ ([(3 : ℤ)] : List ℤ).sum < 2 ^ 63) ∧
    (([(3 : ℤ)] : List ℤ).map (fun v => v * v)).sum < 2 ^ 127 :=
  ⟨⟨by decide, by decide, by decide, by decide⟩,
    C6_amended.2 4 (by decide) (by decide) false [(3 : ℤ)] (by decide)
      (by decide)⟩


/-! ### Claim C8 -/

/-- C8: folding the six values [5,5,5,5,6,7] into the kernels — four of the
5s as a broadcast scalar batch of length 3 plus the array batch [5,6,7], as
in the `ScalarSourceScalarAggSink` test — and finalizing with ddof = 0
yields exactly the binary64 doubles denoted by 0.5833333333333334 (variance)
and 0.7637626158259734 (stddev), and the mean kernel yields exactly
5.5 = 11/2. -/
theorem C8_scalar_agg_values :
    (Finalize .Var 0
        ((VarStdState.fresh.MergeFrom
            (VarStdState.fresh.ConsumeScalar (some 5) 3)).MergeFrom
          (VarStdState.fresh.ConsumeOnePass 4 [some 5, some 6, some 7]))
      = some (roundB64 (5833333333333334 / 10 ^ 16))) ∧
    (Finalize .Std 0
        ((VarStdState.fresh.MergeFrom
            (VarStdState.fresh.ConsumeScalar (some 5) 3)).MergeFrom
          (VarStdState.fresh.ConsumeOnePass 4 [some 5, some 6, some 7]))
      = some (roundB64 (7637626158259734 / 10 ^ 16))) ∧
    (MeanState.finalize
        ((MeanState.consumeScalar ⟨0, 0⟩ (some 5) 3).consumeArray
          [some 5, some 6, some 7])
      = some (11 / 2)) := by
  have harg : ((⟨6, 11 / 2, 7 / 2⟩ : VarStdState).m2
      / (((⟨6, 11 / 2, 7 / 2⟩ : VarStdState).count : ℚ) - ((0 : ℤ) : ℚ)))
      = 7 / 12 := by
    push_cast
    norm_num
  refine ⟨?_, ?_, ?_⟩
  · rw [c8_merged, Finalize, if_neg (by norm_num)]
    simp only [harg]
    rw [c8_var_rounded, c8_var_decimal]
  · rw [c8_merged, Finalize, if_neg (by norm_num)]
    simp only [harg]
    rw [c8_var_rounded, c8_sqrt, c8_std_decimal]
  · have hstate : (MeanState.consumeScalar ⟨0, 0⟩ (some 5) 3).consumeArray
        [some 5, some 6, some 7] = ⟨33, 6⟩ := by
      rw [MeanState.consumeScalar, MeanState.consumeArray]
      simp only [show List.filterMap id [some (5 : ℚ), some 6, some 7]
          = [5, 6, 7] from rfl, MeanState.mk.injEq]
      constructor
      · norm_num
      · rw [show validCount [some (5 : ℚ), some 6, some 7] = 3 from rfl]
        norm_num
    rw [hstate, MeanState.finalize, if_neg (by norm_num)]
    rw [show ((⟨33, 6⟩ : MeanState).sum / ((⟨33, 6⟩ : MeanState).count : ℚ))
        = 11 / 2 from by push_cast; norm_num]
    rw [c8_mean_rounded]

end Arrow
